import Mathlib

/-!
Verification of the natural-language specification of the
`Ubuntu_image-fetcher.py` repository against a shallow embedding of its
code.

Python strings are modelled as lists of characters (`Str`), byte strings
as lists of naturals below 256, and the filesystem as an association list
from path to contents.  Python functions from the source file
(`sanitize_filename`, `make_unique_path`, `ext_from_content_type`,
`download_image`, ...) are translated into Lean definitions of the same
name.  Standard-library calls made by the source (`urllib.parse.unquote`,
`os.path.basename`, `os.path.splitext`, `re` searches, `hashlib.sha256`,
`json` values) are modelled by auxiliary definitions documented at their
declaration sites.
-/

/-- Python strings are sequences of characters. -/
abbrev Str := List Char

/-- Model of Python `str.lower` restricted to ASCII case mapping
(the only case mapping that can affect membership in the all-ASCII
MIME allow-list used by the program). -/
def pyLower (s : Str) : Str := s.map Char.toLower

/-- Characters treated as whitespace by the model of Python `str.strip`. -/
def isPyWs (c : Char) : Bool :=
  c = ' ' || c = '\t' || c = '\n' || c = '\x0d' || c = '\x0b' || c = '\x0c'

/-- Model of Python `str.strip()`: drop leading and trailing whitespace. -/
def pyStrip (s : Str) : Str :=
  ((s.dropWhile isPyWs).reverse.dropWhile isPyWs).reverse

/-- Value of a hexadecimal digit character, if it is one. -/
def hexVal (c : Char) : Option Nat :=
  if '0' ≤ c ∧ c ≤ '9' then some (c.toNat - 48)
  else if 'a' ≤ c ∧ c ≤ 'f' then some (c.toNat - 87)
  else if 'A' ≤ c ∧ c ≤ 'F' then some (c.toNat - 55)
  else none

/-- Decoding of a single percent-decoded byte to a character.  ASCII
bytes decode to themselves; a byte above 127 is represented by the
Unicode replacement character.  This models `urllib.parse.unquote`
byte-per-byte: Python decodes runs of escaped bytes as UTF-8 with
`errors="replace"`, so a multi-byte UTF-8 sequence would decode to one
non-ASCII character where this model produces several replacement
characters; both are outside `[A-Za-z0-9._-]` and are not `/`, so the
two models are indistinguishable through `sanitize_filename`. -/
def decodeByte (b : Nat) : Char :=
  if b < 128 then Char.ofNat b else Char.ofNat 0xFFFD

/-- Model of Python `urllib.parse.unquote`: each `%` followed by two hex
digits is replaced by the decoded byte; a `%` not followed by two hex
digits is kept literally; all other characters pass through.  The first
argument is fuel, always at least the length of the string, consumed at
least once per step. -/
def unquoteF : Nat → Str → Str
  | 0, _ => []
  | _ + 1, [] => []
  | fuel + 1, c :: rest =>
    if c = '%' then
      match rest with
      | a :: b :: rest2 =>
        match hexVal a, hexVal b with
        | some ha, some hb => decodeByte (16 * ha + hb) :: unquoteF fuel rest2
        | _, _ => '%' :: unquoteF fuel rest
      | _ => '%' :: unquoteF fuel rest
    else c :: unquoteF fuel rest

/-- Model of Python `urllib.parse.unquote`. -/
def unquote (s : Str) : Str := unquoteF s.length s

/-- Model of Python `os.path.basename` (posix): the part of the string
after the last `/`. -/
def basename (s : Str) : Str :=
  (s.reverse.takeWhile (· ≠ '/')).reverse

/-- The character class kept by `sanitize_filename`:
`[A-Za-z0-9._-]`. -/
def isSafeChar (c : Char) : Bool :=
  ('A' ≤ c && c ≤ 'Z') || ('a' ≤ c && c ≤ 'z') || ('0' ≤ c && c ≤ '9') ||
    c = '.' || c = '_' || c = '-'

/-- Model of `re.sub(r"_+", "_", s)`: collapse each maximal run of
underscores to a single underscore. -/
def collapseU : Str → Str
  | [] => []
  | c :: rest =>
    if c = '_' ∧ rest.head? = some '_' then collapseU rest
    else c :: collapseU rest

/-- `sanitize_filename` from the source: placeholder for empty input,
percent-decode, strip the directory component, replace characters
outside `[A-Za-z0-9._-]` with `_`, collapse runs of `_`, truncate to
200 characters. -/
def sanitize_filename (name : Str) : Str :=
  let name := if name = [] then "downloaded_image".data else name
  let name := unquote name
  let name := basename name
  let name := name.map (fun c => if isSafeChar c then c else '_')
  let name := collapseU name
  name.take 200

example : sanitize_filename "a/".data = [] := by decide
example : sanitize_filename [] = "downloaded_image".data := by decide
example : sanitize_filename "..%2F..%2Fetc%2Fpasswd".data = "passwd".data := by decide
example : sanitize_filename "my photo (1).png".data = "my_photo_1_.png".data := by decide

/-- Model of Python `os.path.splitext` (posix): split at the last dot of
the final path component, unless every character of that component up to
and including that dot is a dot (leading dots carry no extension). -/
def splitext (p : Str) : Str × Str :=
  let base := basename p
  let dir := p.take (p.length - base.length)
  let lead := base.takeWhile (· = '.')
  let rest := base.drop lead.length
  let r := rest.reverse
  let extRev := r.takeWhile (· ≠ '.')
  if extRev.length = r.length then (p, [])
  else (dir ++ lead ++ (r.drop (extRev.length + 1)).reverse, '.' :: extRev.reverse)

example : splitext "a.b.c".data = ("a.b".data, ".c".data) := by decide
example : splitext ".bashrc".data = (".bashrc".data, []) := by decide
example : splitext "..b".data = ("..b".data, []) := by decide
example : splitext "a..b".data = ("a.".data, ".b".data) := by decide
example : splitext "d/x.png.tmp".data = ("d/x.png".data, ".tmp".data) := by decide

/-- Model of Python `os.path.join(d, n)` (posix, two arguments): an
absolute second component replaces the first; otherwise the two parts
are joined with exactly one slash. -/
def pathJoin (d n : Str) : Str :=
  if n.head? = some '/' then n
  else if d = [] then n
  else if d.getLast? = some '/' then d ++ n
  else d ++ '/' :: n

example : pathJoin "Fetched_Images".data "a.png".data = "Fetched_Images/a.png".data := by decide
example : pathJoin "d/".data "a".data = "d/a".data := by decide
example : pathJoin [] "a".data = "a".data := by decide

/-- The decimal digit characters. -/
def digitChar : Nat → Char
  | 0 => '0' | 1 => '1' | 2 => '2' | 3 => '3' | 4 => '4'
  | 5 => '5' | 6 => '6' | 7 => '7' | 8 => '8' | 9 => '9'
  | _ + 10 => '*'

/-- Decimal digits of `n`, most significant first; fuel-driven so that it
reduces in the kernel (fuel at least the number of digits suffices). -/
def pyStrAux : Nat → Nat → Str
  | 0, _ => []
  | fuel + 1, n => if n = 0 then [] else pyStrAux fuel (n / 10) ++ [digitChar (n % 10)]

/-- Model of Python `str(n)` for a natural number. -/
def pyStr (n : Nat) : Str :=
  if n = 0 then ['0'] else pyStrAux n n

example : pyStr 0 = "0".data := by decide
example : pyStr 208 = "208".data := by decide

/-- Reads a decimal digit string back to a natural number; used to prove
`pyStr` injective. -/
def readNat (l : Str) : Nat :=
  l.foldl (fun a c => 10 * a + (c.toNat - 48)) 0

/-- The `while os.path.exists(candidate)` loop of `make_unique_path`:
starting at suffix index `i`, return the first candidate
`dir/base_i  ++ ext` that is not among the existing paths `fs`.  The
first argument is fuel; `make_unique_path` passes enough fuel for the
loop to always find a free candidate. -/
def mupLoop (fs : List Str) (dir base ext : Str) : Nat → Nat → Str
  | 0, i => pathJoin dir (base ++ '_' :: (pyStr i ++ ext))
  | fuel + 1, i =>
    let cand := pathJoin dir (base ++ '_' :: (pyStr i ++ ext))
    if cand ∈ fs then mupLoop fs dir base ext fuel (i + 1) else cand

/-- `make_unique_path` from the source: keep the target filename if no
file with that name exists, otherwise append `_1`, `_2`, ... before the
extension until a non-existing path is found.  The existing directory
entries are passed in as the list of paths `fs`. -/
def make_unique_path (fs : List Str) (directory filename : Str) : Str :=
  let be := splitext filename
  let candidate := pathJoin directory filename
  if candidate ∈ fs then mupLoop fs directory be.1 be.2 (fs.length + 1) 1
  else candidate

example :
    make_unique_path ["d/a.png".data, "d/a_1.png".data] "d".data "a.png".data =
      "d/a_2.png".data := by decide
example : make_unique_path ["d/b.png".data] "d".data "a.png".data = "d/a.png".data := by
  decide

/-- The fixed seven-member MIME allow-list `ALLOWED_IMAGE_TYPES` from the
source. -/
def ALLOWED_IMAGE_TYPES : List Str :=
  ["image/jpeg".data, "image/png".data, "image/gif".data, "image/webp".data,
   "image/svg+xml".data, "image/bmp".data, "image/tiff".data]

/-- `s.split(";")[0]`: the part of the string before the first `;`
(the whole string when there is none). -/
def beforeSemi (s : Str) : Str := s.takeWhile (· ≠ ';')

/-- The expression `headers.get("Content-Type", "").split(";")[0].strip().lower()`
from `download_image`, over the optional raw header value. -/
def parseCT (h : Option Str) : Str :=
  pyLower (pyStrip (beforeSemi (h.getD [])))

/-- The content-type validation of `download_image` step 1:
`content_type.startswith("image/") and content_type in ALLOWED_IMAGE_TYPES`. -/
def ctAllowed (ct : Str) : Bool :=
  "image/".data.isPrefixOf ct && ALLOWED_IMAGE_TYPES.contains ct

example : ctAllowed (parseCT (some "image/PNG; charset=binary".data)) = true := by decide
example : ctAllowed (parseCT (some "text/html".data)) = false := by decide
example : ctAllowed (parseCT none) = false := by decide

/-- `ext_from_content_type` from the source: the fixed mapping from
allowed MIME type to file extension, empty for an empty or unmapped
type. -/
def ext_from_content_type (content_type : Str) : Str :=
  if content_type = [] then []
  else
    let ct := pyLower (pyStrip (beforeSemi content_type))
    if ct = "image/jpeg".data then ".jpg".data
    else if ct = "image/png".data then ".png".data
    else if ct = "image/gif".data then ".gif".data
    else if ct = "image/webp".data then ".webp".data
    else if ct = "image/svg+xml".data then ".svg".data
    else if ct = "image/bmp".data then ".bmp".data
    else if ct = "image/tiff".data then ".tiff".data
    else []

example : ext_from_content_type "image/jpeg".data = ".jpg".data := by decide
example : ext_from_content_type "text/html".data = [] := by decide

/-- Model of Python `int(s)` for the strings the program feeds it:
optional surrounding whitespace, optional sign, one or more ASCII
decimal digits; anything else raises `ValueError`, modelled as `none`. -/
def pyInt? (s : Str) : Option Int :=
  let t := pyStrip s
  let core : Str → Option Nat := fun ds =>
    if ds ≠ [] ∧ ds.all Char.isDigit then
      some (ds.foldl (fun a c => 10 * a + (c.toNat - 48)) 0)
    else none
  match t with
  | '+' :: ds => (core ds).map Int.ofNat
  | '-' :: ds => (core ds).map (fun n => -(n : Int))
  | ds => (core ds).map Int.ofNat

example : pyInt? " 500 ".data = some 500 := by decide
example : pyInt? "-7".data = some (-7) := by decide
example : pyInt? "12a".data = none := by decide
example : pyInt? [] = none := by decide

/-- The `Content-Length` gate of `download_image` step 2: `true` when the
header is present, truthy, parses as an integer, and that integer
exceeds `max_bytes`; a malformed or absent header never rejects. -/
def lengthRejects (cl : Option Str) (max_bytes : Nat) : Bool :=
  match cl with
  | none => false
  | some s =>
    if s = [] then false
    else
      match pyInt? s with
      | some n => n > (max_bytes : Int)
      | none => false

/-- Drops `p` from the front of `l` when `p` is literally there. -/
def chopLead (p l : Str) : Option Str :=
  match p, l with
  | [], l => some l
  | _ :: _, [] => none
  | a :: ps, b :: ls => if a = b then chopLead ps ls else none

/-- The capture group `([^";]+)` of the Content-Disposition pattern: the
maximal nonempty run of characters that are neither `"` nor `;`. -/
def capRun (l : Str) : Option Str :=
  let r := l.takeWhile (fun c => c ≠ '"' ∧ c ≠ ';')
  if r = [] then none else some r

/-- Matching of the tail of the source pattern
`(?:UTF-8..)?"?([^";]+)"?` at a fixed position, after `filename=` or
`filename*=` has been consumed; the alternatives are tried in regex
backtracking order (charset marker and opening quote consumed greedily,
then dropped on failure).  The charset marker is the seven characters
`UTF-8` followed by two apostrophes. -/
def cdTail (l : Str) : Option Str :=
  let marker : Str := 'U' :: 'T' :: 'F' :: '-' :: '8' :: Char.ofNat 39 :: Char.ofNat 39 :: []
  let opts : List Str :=
    (match chopLead marker l with
     | some l1 =>
       (match chopLead ['"'] l1 with
        | some l2 => [l2]
        | none => []) ++ [l1]
     | none => []) ++
    (match chopLead ['"'] l with
     | some l2 => [l2]
     | none => []) ++ [l]
  opts.findSome? capRun

/-- Matching of the source pattern `filename\*?=` followed by `cdTail`
at a fixed position. -/
def cdMatchAt (l : Str) : Option Str :=
  match chopLead "filename".data l with
  | none => none
  | some l0 =>
    match chopLead "=".data l0 with
    | some l1 => cdTail l1
    | none =>
      match chopLead "*=".data l0 with
      | some l1 => cdTail l1
      | none => none

/-- Model of
`re.search(r-pattern, cd)` from `download_image`: try the pattern at
every position, left to right, returning the first capture. -/
def cdFilename : Str → Option Str
  | [] => none
  | l@(_ :: rest) =>
    match cdMatchAt l with
    | some c => some c
    | none => cdFilename rest

example : cdFilename "attachment; filename=\"cat.jpg\"".data = some "cat.jpg".data := by
  decide
example : cdFilename "attachment; filename*=UTF-8\x27\x27c%20t.png".data =
    some "c%20t.png".data := by decide
example : cdFilename "attachment".data = none := by decide

/-- Scheme characters accepted by `urllib.parse` after the first
letter. -/
def isSchemeChar (c : Char) : Bool :=
  c.isAlphanum || c = '+' || c = '-' || c = '.'

/-- Removes a leading `scheme:` when present, as `urllib.parse.urlparse`
does. -/
def stripScheme (u : Str) : Str :=
  let pre := u.takeWhile (· ≠ ':')
  if pre.length < u.length ∧ pre ≠ [] ∧
      (pre.head?.elim false Char.isAlpha) ∧ pre.all isSchemeChar then
    u.drop (pre.length + 1)
  else u

/-- Model of `urlparse(url).path`: strip the fragment, the query and the
scheme; when the remainder starts with `//`, the authority extends to the
next `/` and the path is what follows (empty when there is no `/`). -/
def urlPath (url : Str) : Str :=
  let u := url.takeWhile (· ≠ '#')
  let u := u.takeWhile (· ≠ '?')
  let u := stripScheme u
  if u.take 2 = "//".data then (u.drop 2).dropWhile (· ≠ '/') else u

example : urlPath "https://x.test/a/b.jpg?s=1#f".data = "/a/b.jpg".data := by decide
example : urlPath "https://x.test".data = [] := by decide
example : urlPath "u".data = "u".data := by decide

/-- 32-bit truncation. -/
def w32 (n : Nat) : Nat := n % 4294967296

/-- 32-bit right rotation. -/
def rotr (k x : Nat) : Nat := w32 ((x >>> k) ||| (x <<< (32 - k)))

/-- SHA-256 round constants. -/
def shaK : List Nat :=
  [1116352408, 1899447441, 3049323471, 3921009573,
   961987163, 1508970993, 2453635748, 2870763221,
   3624381080, 310598401, 607225278, 1426881987,
   1925078388, 2162078206, 2614888103, 3248222580,
   3835390401, 4022224774, 264347078, 604807628,
   770255983, 1249150122, 1555081692, 1996064986,
   2554220882, 2821834349, 2952996808, 3210313671,
   3336571891, 3584528711, 113926993, 338241895,
   666307205, 773529912, 1294757372, 1396182291,
   1695183700, 1986661051, 2177026350, 2456956037,
   2730485921, 2820302411, 3259730800, 3345764771,
   3516065817, 3600352804, 4094571909, 275423344,
   430227734, 506948616, 659060556, 883997877,
   958139571, 1322822218, 1537002063, 1747873779,
   1955562222, 2024104815, 2227730452, 2361852424,
   2428436474, 2756734187, 3204031479, 3329325298]

/-- SHA-256 initial hash state. -/
def shaH0 : List Nat :=
  [1779033703, 3144134277, 1013904242, 2773480762,
   1359893119, 2600822924, 528734635, 1541459225]

/-- SHA-256 message padding: append `0x80`, zeros, and the 64-bit
big-endian bit length, to a multiple of 64 bytes. -/
def shaPad (msg : List Nat) : List Nat :=
  let len := msg.length
  let zeros := (119 - len % 64) % 64
  let bitLen := 8 * len
  msg ++ (0x80 :: List.replicate zeros 0) ++
    [bitLen >>> 56 % 256, bitLen >>> 48 % 256, bitLen >>> 40 % 256,
     bitLen >>> 32 % 256, bitLen >>> 24 % 256, bitLen >>> 16 % 256,
     bitLen >>> 8 % 256, bitLen % 256]

/-- Big-endian 32-bit words from a list of bytes. -/
def bytesToWords : List Nat → List Nat
  | b0 :: b1 :: b2 :: b3 :: rest =>
    (((b0 * 256 + b1) * 256 + b2) * 256 + b3) :: bytesToWords rest
  | _ => []

/-- The SHA-256 message-schedule extension step: extends the 16 block
words to 64. -/
def shaExtend (ws : List Nat) : List Nat :=
  (List.range 48).foldl
    (fun ws _ =>
      let n := ws.length
      let w15 := ws.getD (n - 15) 0
      let w2 := ws.getD (n - 2) 0
      let s0 := (rotr 7 w15) ^^^ (rotr 18 w15) ^^^ (w15 >>> 3)
      let s1 := (rotr 17 w2) ^^^ (rotr 19 w2) ^^^ (w2 >>> 10)
      ws ++ [w32 (ws.getD (n - 16) 0 + s0 + ws.getD (n - 7) 0 + s1)])
    ws

/-- One SHA-256 compression round. -/
def shaRound (st : List Nat) (kw : Nat × Nat) : List Nat :=
  match st with
  | [a, b, c, d, e, f, g, h] =>
    let s1 := (rotr 6 e) ^^^ (rotr 11 e) ^^^ (rotr 25 e)
    let ch := (e &&& f) ^^^ ((0xffffffff - e) &&& g)
    let t1 := w32 (h + s1 + ch + kw.1 + kw.2)
    let s0 := (rotr 2 a) ^^^ (rotr 13 a) ^^^ (rotr 22 a)
    let mj := (a &&& b) ^^^ (a &&& c) ^^^ (b &&& c)
    let t2 := w32 (s0 + mj)
    [w32 (t1 + t2), a, b, c, w32 (d + t1), e, f, g]
  | st => st

/-- SHA-256 compression of one 64-byte block into the running state. -/
def shaBlock (h : List Nat) (block : List Nat) : List Nat :=
  let ws := shaExtend (bytesToWords block)
  let st := (shaK.zip ws).foldl shaRound h
  List.zipWith (fun a b => w32 (a + b)) h st

/-- Splits a list into 64-byte blocks (fuel-driven; fuel at least the
number of blocks suffices). -/
def chunk64 : Nat → List Nat → List (List Nat)
  | 0, _ => []
  | _ + 1, [] => []
  | fuel + 1, l => l.take 64 :: chunk64 fuel (l.drop 64)

/-- Hexadecimal digit character for a value below 16. -/
def hexChar (n : Nat) : Char :=
  if n < 10 then digitChar n else
    match n with
    | 10 => 'a' | 11 => 'b' | 12 => 'c' | 13 => 'd' | 14 => 'e' | _ => 'f'

/-- Lowercase hexadecimal rendering of one 32-bit word. -/
def wordHex (x : Nat) : Str :=
  [hexChar (x >>> 28 % 16), hexChar (x >>> 24 % 16), hexChar (x >>> 20 % 16),
   hexChar (x >>> 16 % 16), hexChar (x >>> 12 % 16), hexChar (x >>> 8 % 16),
   hexChar (x >>> 4 % 16), hexChar (x % 16)]

/-- Model of `hashlib.sha256(data).hexdigest()`: the SHA-256 digest of a
byte sequence, as 64 lowercase hex characters.  Feeding the chunks of a
stream into a running `hashlib` hasher computes exactly the digest of
their concatenation, which is the byte sequence passed here. -/
def sha256hex (msg : List Nat) : Str :=
  let blocks := chunk64 (msg.length / 64 + 2) (shaPad msg)
  (blocks.foldl shaBlock shaH0).flatMap wordHex

example :
    sha256hex [] =
      "e3b0c44298fc1c149afbf4c8996fb92427ae41e4649b934ca495991b7852b855".data := by
  decide
example :
    sha256hex ("abcdbcdecdefdefgefghfghighijhijkijkljklmklmnlmnomnopnopq".data.map
        Char.toNat) =
      "248d6a61d20638b8e5c026930c3e6039a33ce45964ff2167f6ecedd419db06c1".data := by
  decide
example :
    sha256hex [97, 98, 99] =
      "ba7816bf8f01cfea414140de5dae2223b00361a396177a9cb410ff61f20015ad".data := by
  decide

/-- JSON values, the possible results of `load_index` (`json.load`
returns any JSON value: object, array, string, number, boolean or
null). -/
inductive JValue where
  | null : JValue
  | bool : Bool → JValue
  | num : Int → JValue
  | str : Str → JValue
  | arr : List JValue → JValue
  | obj : List (Str × JValue) → JValue

instance : Inhabited JValue := ⟨.null⟩

/-- Exceptions that the embedded fragment of `download_image` can leave
uncaught: Python `TypeError` and `KeyError`. -/
inductive PyExn where
  | typeError : PyExn
  | keyError : Str → PyExn
  deriving DecidableEq

/-- Key membership in an association list (Python dict keys are
unique; `json.load` produces unique keys, later duplicates winning; the
model applies first-match lookup). -/
def hasKey (kvs : List (Str × JValue)) (k : Str) : Bool :=
  kvs.any (fun kv => kv.1 = k)

/-- First-match lookup in an association list. -/
def lookupKV (kvs : List (Str × JValue)) (k : Str) : Option JValue :=
  match kvs with
  | [] => none
  | kv :: rest => if kv.1 = k then some kv.2 else lookupKV rest k

/-- Structural equality test used by the model of Python `in` on a
list.  Python `==` on values decoded from JSON coincides with structural
equality except for numeric coercions, which cannot make a string equal
to anything non-string; the program only ever tests a string for
membership. -/
def jBeq : JValue → JValue → Bool
  | .null, .null => true
  | .bool a, .bool b => a = b
  | .num a, .num b => a = b
  | .str a, .str b => a = b
  | .arr a, .arr b => jBeqL a b
  | .obj _, .obj _ => false
  | _, _ => false
where
  jBeqL : List JValue → List JValue → Bool
    | [], [] => true
    | a :: as_, b :: bs => jBeq a b && jBeqL as_ bs
    | _, _ => false

/-- Model of Python `digest in index` for an arbitrary loaded JSON
value: key membership on a dict, element membership on a list,
substring test on a string, `TypeError` on the remaining (non-container)
values. -/
def jContains (k : Str) : JValue → Except PyExn Bool
  | .obj kvs => .ok (hasKey kvs k)
  | .arr xs => .ok (xs.any (jBeq (.str k)))
  | .str s => .ok (decide (k <:+: s))
  | _ => .error .typeError

/-- Model of Python `index[k]` / `existing[k]` for an arbitrary loaded
JSON value: lookup on a dict (`KeyError` when absent), `TypeError` on
anything else (string and list subscripts must be integers, other values
are not subscriptable). -/
def jGetItem (k : Str) : JValue → Except PyExn JValue
  | .obj kvs =>
    match lookupKV kvs k with
    | some v => .ok v
    | none => .error (.keyError k)
  | _ => .error .typeError

/-- Model of Python `existing.get(k)`; in `download_image` it is only
evaluated after `existing[..]` has succeeded, hence on a dict. -/
def jGetDefault (k : Str) : JValue → JValue
  | .obj kvs => (lookupKV kvs k).getD .null
  | _ => .null

/-- Insertion into an association list with Python dict semantics: an
existing key is updated in place, a new key is appended at the end. -/
def setKV (kvs : List (Str × JValue)) (k : Str) (v : JValue) : List (Str × JValue) :=
  if hasKey kvs k then kvs.map (fun kv => if kv.1 = k then (k, v) else kv)
  else kvs ++ [(k, v)]

/-- Model of Python `index[k] = v` for an arbitrary loaded JSON value:
assignment on a dict, `TypeError` on anything else (list and string
subscript assignment with a string index, or unsubscriptable value). -/
def jSetItem (k : Str) (v : JValue) : JValue → Except PyExn JValue
  | .obj kvs => .ok (.obj (setKV kvs k v))
  | _ => .error .typeError

/-- The filesystem inside the output directory: an association list from
path to file contents (bytes).  All filesystem operations of the model
are total: the embedding covers the logic of `download_image`, not disk
faults (`OSError` from a full disk or missing permissions is outside the
model). -/
abbrev FS := List (Str × List Nat)

/-- Contents of the file at a path, when it exists. -/
def fileContents (fs : FS) (p : Str) : Option (List Nat) :=
  match fs with
  | [] => none
  | e :: rest => if e.1 = p then some e.2 else fileContents rest p

/-- Model of `os.path.exists` restricted to the modelled directory. -/
def fileExists (fs : FS) (p : Str) : Bool :=
  fs.any (fun e => e.1 = p)

/-- The list of existing paths, as consulted by `make_unique_path`. -/
def fsPaths (fs : FS) : List Str := fs.map Prod.fst

/-- Model of `os.remove`. -/
def removeFile (fs : FS) (p : Str) : FS :=
  fs.filter (fun e => ¬ e.1 = p)

/-- Model of `open(p, "wb")` followed by writing `bytes`: creates or
truncates and rewrites the file at `p`. -/
def setFile (fs : FS) (p : Str) (bytes : List Nat) : FS :=
  (p, bytes) :: removeFile fs p

/-- Model of `os.replace(src, dst)`: the file at `src` is renamed to
`dst`, replacing any file already at `dst`. -/
def replaceFile (fs : FS) (src dst : Str) : FS :=
  match fileContents fs src with
  | some b => setFile (removeFile fs src) dst b
  | none => fs

/-- The fields of an HTTP response inspected by `download_image`: status
code, the three headers it reads, and the body as the chunk sequence
delivered by `resp.iter_content`. -/
structure Resp where
  status : Nat
  contentType : Option Str
  contentLength : Option Str
  contentDisposition : Option Str
  body : List (List Nat)

/-- Result of `session.get`: either a `requests.RequestException`
(caught at the call site) or a response. -/
inductive GetResult where
  | requestError : GetResult
  | response : Resp → GetResult

/-- The structured failure reasons of `download_image`, one constructor
per `return False` site of the source. -/
inductive Reason where
  | requestError : Reason
  | httpError (status : Nat) : Reason
  | rejectedType (content_type : Str) : Reason
  | rejectedLength (declared : Str) (max_bytes : Nat) : Reason
  | aborted (max_bytes : Nat) : Reason
  | duplicate (filename url : JValue) : Reason

/-- The value returned by `download_image`: `(False, reason)` or
`(True, final_path)`. -/
inductive DLRes where
  | failure : Reason → DLRes
  | success (path : Str) : DLRes

/-- A full outcome of a `download_image` call: a returned value or an
uncaught exception, together with the final filesystem and index. -/
inductive Outcome where
  | ret (res : DLRes) (fs : FS) (index : JValue) : Outcome
  | raise (e : PyExn) (fs : FS) (index : JValue) : Outcome

/-- The streaming loop of `download_image`: writes each nonempty chunk,
feeding the running byte count; returns `none` when the cumulative count
exceeds `max_bytes` (the aborted transfer), otherwise the accumulated
bytes and count. -/
def streamChunks (max_bytes : Nat) : List (List Nat) → List Nat → Nat → Option (List Nat × Nat)
  | [], acc, total => some (acc, total)
  | c :: cs, acc, total =>
    if c = [] then streamChunks max_bytes cs acc total
    else
      let acc2 := acc ++ c
      let total2 := total + c.length
      if total2 > max_bytes then none
      else streamChunks max_bytes cs acc2 total2

/-- The filename selection of `download_image` before the extension
step: the sanitized Content-Disposition capture when the header is
truthy, matches, and sanitizes to something truthy; otherwise the
sanitized basename of the URL path. -/
def rawName (url : Str) (cd : Option Str) : Str :=
  let f0 : Str :=
    match cd with
    | some c => if c = [] then [] else ((cdFilename c).map sanitize_filename).getD []
    | none => []
  if f0 = [] then sanitize_filename (basename (urlPath url)) else f0

/-- The extension step of `download_image`: a filename without an
extension receives the one inferred from the content type, or `.img`
when the mapping has none. -/
def finalizeName (filename : Str) (content_type : Str) : Str :=
  if (splitext filename).2 = [] then
    let ext := ext_from_content_type content_type
    if ext = [] then filename ++ ".img".data else filename ++ ext
  else filename

/-- The complete target-filename computation of `download_image`. -/
def targetFilename (url : Str) (cd : Option Str) (content_type : Str) : Str :=
  finalizeName (rawName url cd) content_type

/-- The index record inserted on success (step 6 of the source). -/
def mkRecord (filename url content_type : Str) (size now : Nat) : JValue :=
  .obj [("filename".data, .str filename), ("url".data, .str url),
        ("content_type".data, .str content_type), ("size".data, .num size),
        ("timestamp".data, .num now)]

/-- `download_image` from the source, over the in-memory filesystem
`fs`, the response (or request failure) `g`, the loaded index value, the
byte ceiling and the completion clock reading `now`. -/
def download_image (fs : FS) (url out_dir : Str) (g : GetResult) (index : JValue)
    (max_bytes : Nat) (now : Nat) : Outcome :=
  match g with
  | .requestError => .ret (.failure .requestError) fs index
  | .response r =>
    if 400 ≤ r.status ∧ r.status < 600 then
      .ret (.failure (.httpError r.status)) fs index
    else
      let content_type := parseCT r.contentType
      if ¬ ctAllowed content_type then
        .ret (.failure (.rejectedType content_type)) fs index
      else if lengthRejects r.contentLength max_bytes then
        .ret (.failure (.rejectedLength (r.contentLength.getD []) max_bytes)) fs index
      else
        let filename := targetFilename url r.contentDisposition content_type
        let tmp_path := pathJoin out_dir (filename ++ ".tmp".data)
        match streamChunks max_bytes r.body [] 0 with
        | none => .ret (.failure (.aborted max_bytes)) (removeFile fs tmp_path) index
        | some (bytes, total) =>
          let fs1 := setFile fs tmp_path bytes
          let digest := sha256hex bytes
          match jContains digest index with
          | .error e => .raise e fs1 index
          | .ok true =>
            let fs2 := removeFile fs1 tmp_path
            match jGetItem digest index with
            | .error e => .raise e fs2 index
            | .ok existing =>
              match jGetItem "filename".data existing with
              | .error e => .raise e fs2 index
              | .ok fname =>
                .ret (.failure (.duplicate fname (jGetDefault "url".data existing)))
                  fs2 index
          | .ok false =>
            let final_path := make_unique_path (fsPaths fs1) out_dir filename
            let fs2 := replaceFile fs1 tmp_path final_path
            match jSetItem digest
                (mkRecord (basename final_path) url content_type total now) index with
            | .error e => .raise e fs2 index
            | .ok index2 => .ret (.success final_path) fs2 index2

example :
    download_image [] "u".data "d".data
      (.response ⟨200, some "image/png".data, some "1".data, none, [[97]]⟩)
      (.obj []) 100 5 =
    .ret (.success "d/u.png".data) [("d/u.png".data, [97])]
      (.obj [(sha256hex [97], mkRecord "u.png".data "u".data "image/png".data 1 5)]) := by
  rfl

example :
    download_image [("d/u.png".data, [97])] "u".data "d".data
      (.response ⟨200, some "image/png".data, some "1".data, none, [[97]]⟩)
      (.obj [(sha256hex [97], mkRecord "u.png".data "u".data "image/png".data 1 5)]) 100 9 =
    .ret (.failure (.duplicate (.str "u.png".data) (.str "u".data)))
      [("d/u.png".data, [97])]
      (.obj [(sha256hex [97], mkRecord "u.png".data "u".data "image/png".data 1 5)]) := by
  rfl

example :
    download_image [] "u".data "d".data
      (.response ⟨200, some "image/png".data, none, none, [[97]]⟩)
      (.arr []) 100 5 =
    .raise .typeError [("d/u.png".data, [97])] (.arr []) := by
  rfl

example :
    download_image [] "u".data "d".data
      (.response ⟨200, some "image/png".data, none, none, [[97], [98, 99]]⟩)
      (.obj []) 2 5 =
    .ret (.failure (.aborted 2)) [] (.obj []) := by
  rfl

example :
    download_image [] "u".data "d".data
      (.response ⟨404, some "image/png".data, none, none, [[97]]⟩)
      (.obj []) 100 5 =
    .ret (.failure (.httpError 404)) [] (.obj []) := by
  rfl

/-- Total number of body bytes delivered by the chunk stream. -/
def chunksSum (cs : List (List Nat)) : Nat := (cs.map List.length).sum

/-- Concatenation of the chunk stream. -/
def concatChunks (cs : List (List Nat)) : List Nat := cs.foldr (· ++ ·) []

/-- Whether an outcome is the content-type rejection failure. -/
def isCTReject : Outcome → Bool
  | .ret (.failure (.rejectedType _)) _ _ => true
  | _ => false

/-- Whether an outcome is the mid-transfer size abort failure. -/
def isAborted : Outcome → Bool
  | .ret (.failure (.aborted _)) _ _ => true
  | _ => false

/-- Whether an outcome is a structured return rather than an uncaught
exception. -/
def notRaised : Outcome → Bool
  | .ret _ _ _ => true
  | .raise _ _ _ => false

lemma chunksSum_cons (c : List Nat) (cs : List (List Nat)) :
    chunksSum (c :: cs) = c.length + chunksSum cs := by
  simp [chunksSum]

lemma streamChunks_none_iff (max_bytes : Nat) :
    ∀ (cs : List (List Nat)) (acc : List Nat) (total : Nat), total ≤ max_bytes →
      (streamChunks max_bytes cs acc total = none ↔ max_bytes < total + chunksSum cs) := by
  intro cs
  induction cs with
  | nil =>
    intro acc total h
    simp [streamChunks, chunksSum]
    omega
  | cons c cs ih =>
    intro acc total h
    by_cases hc : c = []
    · subst hc
      simp only [streamChunks, chunksSum_cons, List.length_nil, if_true]
      rw [ih acc total h]
      omega
    · simp only [streamChunks, if_neg hc, chunksSum_cons]
      by_cases hover : total + c.length > max_bytes
      · rw [if_pos hover]
        constructor
        · intro _; omega
        · intro _; rfl
      · rw [if_neg hover]
        rw [ih (acc ++ c) (total + c.length) (by omega)]
        omega

lemma streamChunks_some_val (max_bytes : Nat) :
    ∀ (cs : List (List Nat)) (acc : List Nat) (total : Nat),
      total + chunksSum cs ≤ max_bytes →
      streamChunks max_bytes cs acc total =
        some (acc ++ concatChunks cs, total + chunksSum cs) := by
  intro cs
  induction cs with
  | nil => intro acc total h; simp [streamChunks, chunksSum, concatChunks]
  | cons c cs ih =>
    intro acc total h
    rw [chunksSum_cons] at h
    by_cases hc : c = []
    · subst hc
      simp only [streamChunks, if_true]
      rw [ih acc total (by omega)]
      simp [chunksSum_cons, concatChunks]
    · simp only [streamChunks, if_neg hc]
      rw [if_neg (by omega)]
      rw [ih (acc ++ c) (total + c.length) (by omega)]
      simp [chunksSum_cons, concatChunks]
      omega

lemma streamChunks_some_len (max_bytes : Nat) :
    ∀ (cs : List (List Nat)) (acc : List Nat) (total : Nat) (b : List Nat) (t : Nat),
      streamChunks max_bytes cs acc total = some (b, t) →
      t + acc.length = total + b.length := by
  intro cs
  induction cs with
  | nil =>
    intro acc total b t h
    simp [streamChunks] at h
    obtain ⟨h1, h2⟩ := h
    subst h1; subst h2; rfl
  | cons c cs ih =>
    intro acc total b t h
    by_cases hc : c = []
    · subst hc
      simp only [streamChunks, if_pos rfl] at h
      exact ih acc total b t h
    · simp only [streamChunks, if_neg hc] at h
      by_cases hover : total + c.length > max_bytes
      · rw [if_pos hover] at h; exact absurd h (by simp)
      · rw [if_neg hover] at h
        have := ih (acc ++ c) (total + c.length) b t h
        simp at this
        omega

lemma fileExists_removeFile (fs : FS) (p : Str) :
    fileExists (removeFile fs p) p = false := by
  simp only [fileExists, removeFile, List.any_eq_true, decide_eq_true_eq,
    List.mem_filter, not_exists, not_and]
  simp

/-- C1: if the cumulative streamed byte count exceeds `max_bytes`, the
routine deletes the temporary file (its path no longer exists
afterwards), returns the aborted-transfer failure, and leaves the index
untouched. -/
theorem C1_stream_abort (fs : FS) (url out_dir : Str) (r : Resp) (index : JValue)
    (max_bytes now : Nat)
    (hstat : ¬ (400 ≤ r.status ∧ r.status < 600))
    (hct : ctAllowed (parseCT r.contentType) = true)
    (hlen : lengthRejects r.contentLength max_bytes = false)
    (hover : max_bytes < chunksSum r.body) :
    ∃ tmp_path,
      tmp_path =
        pathJoin out_dir
          (targetFilename url r.contentDisposition (parseCT r.contentType) ++ ".tmp".data) ∧
      download_image fs url out_dir (.response r) index max_bytes now =
        .ret (.failure (.aborted max_bytes)) (removeFile fs tmp_path) index ∧
      fileExists (removeFile fs tmp_path) tmp_path = false := by
  refine ⟨_, rfl, ?_, fileExists_removeFile _ _⟩
  have hnone : streamChunks max_bytes r.body [] 0 = none :=
    (streamChunks_none_iff max_bytes r.body [] 0 (Nat.zero_le _)).mpr (by omega)
  simp only [download_image, hstat, hct, hlen, hnone, if_false, Bool.not_true,
    not_true_eq_false, not_false_eq_true, if_true, reduceCtorEq]

theorem C1_witness :
    ∃ tmp_path,
      tmp_path =
        pathJoin "d".data
          (targetFilename "u".data none (parseCT (some "image/png".data)) ++ ".tmp".data) ∧
      download_image [] "u".data "d".data
          (.response ⟨200, some "image/png".data, none, none, [[1, 2, 3]]⟩)
          (.obj []) 2 0 =
        .ret (.failure (.aborted 2)) (removeFile [] tmp_path) (.obj []) ∧
      fileExists (removeFile [] tmp_path) tmp_path = false :=
  C1_stream_abort [] "u".data "d".data ⟨200, some "image/png".data, none, none, [[1, 2, 3]]⟩
    (.obj []) 2 0 (by decide) (by decide) (by decide) (by decide)

lemma lengthRejects_true_of_parse (s : Str) (max_bytes : Nat) (n : Int)
    (hs : pyInt? s = some n) (hn : (max_bytes : Int) < n) :
    lengthRejects (some s) max_bytes = true := by
  have hne : s ≠ [] := by
    intro h
    subst h
    simp [pyInt?, pyStrip] at hs
  simp only [lengthRejects, if_neg hne, hs]
  simpa using hn

lemma lengthRejects_false_of_noparse (s : Str) (max_bytes : Nat)
    (hs : pyInt? s = none) :
    lengthRejects (some s) max_bytes = false := by
  by_cases hne : s = []
  · simp [lengthRejects, hne]
  · simp [lengthRejects, hne, hs]

/-- C6: a present `Content-Length` that parses to an integer above
`max_bytes` is rejected before any write (filesystem and index returned
unchanged, so no temporary file is created), and a present
`Content-Length` that does not parse as an integer is ignored: the
outcome equals the outcome for the same response without the header. -/
theorem C6_content_length_gate :
    (∀ (fs : FS) (url out_dir : Str) (r : Resp) (index : JValue)
        (max_bytes now : Nat) (s : Str) (n : Int),
      ¬ (400 ≤ r.status ∧ r.status < 600) →
      ctAllowed (parseCT r.contentType) = true →
      r.contentLength = some s →
      pyInt? s = some n →
      (max_bytes : Int) < n →
      download_image fs url out_dir (.response r) index max_bytes now =
        .ret (.failure (.rejectedLength s max_bytes)) fs index)
    ∧ (∀ (fs : FS) (url out_dir : Str) (status : Nat) (ct cd : Option Str)
        (body : List (List Nat)) (s : Str) (index : JValue) (max_bytes now : Nat),
      pyInt? s = none →
      download_image fs url out_dir (.response ⟨status, ct, some s, cd, body⟩)
          index max_bytes now =
        download_image fs url out_dir (.response ⟨status, ct, none, cd, body⟩)
          index max_bytes now) := by
  constructor
  · intro fs url out_dir r index max_bytes now s n hstat hct hcl hs hn
    have hrej := lengthRejects_true_of_parse s max_bytes n hs hn
    simp [download_image, hstat, hct, hcl, hrej]
  · intro fs url out_dir status ct cd body s index max_bytes now hs
    have hrej := lengthRejects_false_of_noparse s max_bytes hs
    have hnone : lengthRejects none max_bytes = false := rfl
    simp [download_image, hrej, hnone]

theorem C6_witness :
    download_image [] "u".data "d".data
        (.response ⟨200, some "image/png".data, some "99".data, none, [[1]]⟩)
        (.obj []) 10 0 =
      .ret (.failure (.rejectedLength "99".data 10)) [] (.obj [])
    ∧ download_image [] "u".data "d".data
        (.response ⟨200, some "image/png".data, some "9x".data, none, [[1]]⟩)
        (.obj []) 10 0 =
      download_image [] "u".data "d".data
        (.response ⟨200, some "image/png".data, none, none, [[1]]⟩)
        (.obj []) 10 0 :=
  ⟨C6_content_length_gate.1 [] "u".data "d".data
      ⟨200, some "image/png".data, some "99".data, none, [[1]]⟩ (.obj []) 10 0
      "99".data 99 (by decide) (by decide) rfl (by decide) (by decide),
   C6_content_length_gate.2 [] "u".data "d".data 200 (some "image/png".data) none
      [[1]] "9x".data (.obj []) 10 0 (by decide)⟩

/-- C10: both size checks are strict.  A `Content-Length` equal to
`max_bytes` exactly is treated like an absent header (processing
continues identically); a body totalling at most `max_bytes` is never
size-aborted; a body totalling strictly more is. -/
theorem C10_strict_boundaries :
    (∀ (fs : FS) (url out_dir : Str) (status : Nat) (ct cd : Option Str)
        (body : List (List Nat)) (s : Str) (index : JValue) (max_bytes now : Nat),
      pyInt? s = some (max_bytes : Int) →
      download_image fs url out_dir (.response ⟨status, ct, some s, cd, body⟩)
          index max_bytes now =
        download_image fs url out_dir (.response ⟨status, ct, none, cd, body⟩)
          index max_bytes now)
    ∧ (∀ (fs : FS) (url out_dir : Str) (r : Resp) (index : JValue)
        (max_bytes now : Nat),
      chunksSum r.body ≤ max_bytes →
      isAborted (download_image fs url out_dir (.response r) index max_bytes now) = false)
    ∧ (∀ (fs : FS) (url out_dir : Str) (r : Resp) (index : JValue)
        (max_bytes now : Nat),
      ¬ (400 ≤ r.status ∧ r.status < 600) →
      ctAllowed (parseCT r.contentType) = true →
      lengthRejects r.contentLength max_bytes = false →
      max_bytes < chunksSum r.body →
      isAborted (download_image fs url out_dir (.response r) index max_bytes now) = true) := by
  refine ⟨?_, ?_, ?_⟩
  · intro fs url out_dir status ct cd body s index max_bytes now hs
    have hrej : lengthRejects (some s) max_bytes = false := by
      have hne : s ≠ [] := by
        intro h
        subst h
        simp [pyInt?, pyStrip] at hs
      simp [lengthRejects, hne, hs]
    have hnone : lengthRejects none max_bytes = false := rfl
    simp [download_image, hrej, hnone]
  · intro fs url out_dir r index max_bytes now hsum
    have hsome := streamChunks_some_val max_bytes r.body [] 0 (by simpa using hsum)
    simp only [download_image, hsome]
    split
    · rfl
    split
    · rfl
    split
    · rfl
    split
    · rfl
    split
    · rfl
    split
    · rfl
    · rfl
    split
    · rfl
    · rfl
  · intro fs url out_dir r index max_bytes now hstat hct hlen hover
    have hnone : streamChunks max_bytes r.body [] 0 = none :=
      (streamChunks_none_iff max_bytes r.body [] 0 (Nat.zero_le _)).mpr (by omega)
    simp [download_image, hstat, hct, hlen, hnone, isAborted]

theorem C10_witness :
    download_image [] "u".data "d".data
        (.response ⟨200, some "image/png".data, some "10".data, none, [[1]]⟩)
        (.obj []) 10 0 =
      download_image [] "u".data "d".data
        (.response ⟨200, some "image/png".data, none, none, [[1]]⟩)
        (.obj []) 10 0
    ∧ isAborted (download_image [] "u".data "d".data
        (.response ⟨200, some "image/png".data, none, none, [[1, 2], [3]]⟩)
        (.obj []) 3 0) = false
    ∧ isAborted (download_image [] "u".data "d".data
        (.response ⟨200, some "image/png".data, none, none, [[1, 2], [3], [4]]⟩)
        (.obj []) 3 0) = true :=
  ⟨C10_strict_boundaries.1 [] "u".data "d".data 200 (some "image/png".data) none
      [[1]] "10".data (.obj []) 10 0 (by decide),
   C10_strict_boundaries.2.1 [] "u".data "d".data
      ⟨200, some "image/png".data, none, none, [[1, 2], [3]]⟩ (.obj []) 3 0 (by decide),
   C10_strict_boundaries.2.2 [] "u".data "d".data
      ⟨200, some "image/png".data, none, none, [[1, 2], [3], [4]]⟩ (.obj []) 3 0
      (by decide) (by decide) rfl (by decide)⟩

lemma isCTReject_false_of_allowed (fs : FS) (url out_dir : Str) (r : Resp)
    (index : JValue) (max_bytes now : Nat)
    (hstat : ¬ (400 ≤ r.status ∧ r.status < 600))
    (hct : ctAllowed (parseCT r.contentType) = true) :
    isCTReject (download_image fs url out_dir (.response r) index max_bytes now) = false := by
  simp only [download_image]
  rw [if_neg hstat, if_neg (by simp [hct])]
  repeat first
  | rfl
  | split

/-- C5: for a response that passes the HTTP status check, the
content-type rejection failure occurs exactly when the parsed
content type does not both start with `image/` and belong to the fixed
seven-member allow-list; on rejection the filesystem and the index are
returned unchanged. -/
theorem C5_content_type_gate (fs : FS) (url out_dir : Str) (r : Resp) (index : JValue)
    (max_bytes now : Nat)
    (hstat : ¬ (400 ≤ r.status ∧ r.status < 600)) :
    (isCTReject (download_image fs url out_dir (.response r) index max_bytes now) = true ↔
      ("image/".data.isPrefixOf (parseCT r.contentType) &&
        ALLOWED_IMAGE_TYPES.contains (parseCT r.contentType)) = false)
    ∧ (("image/".data.isPrefixOf (parseCT r.contentType) &&
        ALLOWED_IMAGE_TYPES.contains (parseCT r.contentType)) = false →
      download_image fs url out_dir (.response r) index max_bytes now =
        .ret (.failure (.rejectedType (parseCT r.contentType))) fs index) := by
  by_cases hb : ctAllowed (parseCT r.contentType) = true
  · have hb2 : ("image/".data.isPrefixOf (parseCT r.contentType) &&
        ALLOWED_IMAGE_TYPES.contains (parseCT r.contentType)) = true := hb
    have hno := isCTReject_false_of_allowed fs url out_dir r index max_bytes now hstat hb
    constructor
    · rw [hno, hb2]
      simp
    · intro hfalse
      rw [hb2] at hfalse
      exact absurd hfalse (by simp)
  · have hb2 : ctAllowed (parseCT r.contentType) = false := by
      revert hb
      cases ctAllowed (parseCT r.contentType) <;> simp
    have heq : download_image fs url out_dir (.response r) index max_bytes now =
        .ret (.failure (.rejectedType (parseCT r.contentType))) fs index := by
      simp [download_image, hstat, hb2]
    refine ⟨?_, fun _ => heq⟩
    rw [heq]
    exact ⟨fun _ => hb2, fun _ => rfl⟩

theorem C5_witness :
    (isCTReject (download_image [] "u".data "d".data
        (.response ⟨200, some "text/html".data, none, none, [[1]]⟩)
        (.obj []) 10 0) = true ↔
      ("image/".data.isPrefixOf (parseCT (some "text/html".data)) &&
        ALLOWED_IMAGE_TYPES.contains (parseCT (some "text/html".data))) = false)
    ∧ (("image/".data.isPrefixOf (parseCT (some "text/html".data)) &&
        ALLOWED_IMAGE_TYPES.contains (parseCT (some "text/html".data))) = false →
      download_image [] "u".data "d".data
          (.response ⟨200, some "text/html".data, none, none, [[1]]⟩)
          (.obj []) 10 0 =
        .ret (.failure (.rejectedType (parseCT (some "text/html".data)))) [] (.obj [])) :=
  C5_content_type_gate [] "u".data "d".data
    ⟨200, some "text/html".data, none, none, [[1]]⟩ (.obj []) 10 0 (by decide)

/-- Well-formedness of a loaded index value: a JSON object each of whose
values is an object carrying a `filename` key.  This is the shape
`download_image` itself writes; `load_index` does not validate it. -/
def wfIndex : JValue → Bool
  | .obj kvs =>
    kvs.all (fun kv =>
      match kv.2 with
      | .obj l => hasKey l "filename".data
      | _ => false)
  | _ => false

lemma lookupKV_some_of_hasKey (kvs : List (Str × JValue)) (k : Str)
    (h : hasKey kvs k = true) : ∃ v, lookupKV kvs k = some v := by
  induction kvs with
  | nil => simp [hasKey] at h
  | cons kv rest ih =>
    by_cases he : kv.1 = k
    · exact ⟨kv.2, by simp [lookupKV, he]⟩
    · simp only [hasKey, List.any_cons, Bool.or_eq_true, decide_eq_true_eq] at h
      rcases h with h | h
      · exact absurd h he
      · obtain ⟨v, hv⟩ := ih h
        exact ⟨v, by simp [lookupKV, he, hv]⟩

lemma lookupKV_mem (kvs : List (Str × JValue)) (k : Str) (v : JValue)
    (h : lookupKV kvs k = some v) : ∃ kv, kv ∈ kvs ∧ kv.2 = v := by
  induction kvs with
  | nil => simp [lookupKV] at h
  | cons kv rest ih =>
    by_cases he : kv.1 = k
    · simp only [lookupKV, he, if_true] at h
      refine ⟨kv, List.mem_cons_self kv rest, ?_⟩
      injection h
    · simp only [lookupKV, he, if_false] at h
      obtain ⟨kv2, hmem, hv⟩ := ih h
      exact ⟨kv2, List.mem_cons_of_mem kv hmem, hv⟩

/-- C4 (amended): provided the loaded index is a JSON object whose
values are objects each containing a `filename` key — the shape the
program itself persists — `download_image` raises no exception: every
outcome is a structured return.  Filesystem operations are total in the
model; the guarded part is the index handling, which is where the
unamended claim fails. -/
theorem C4_no_raise_for_wf_index (fs : FS) (url out_dir : Str) (g : GetResult)
    (index : JValue) (max_bytes now : Nat)
    (hwf : wfIndex index = true) :
    notRaised (download_image fs url out_dir g index max_bytes now) = true := by
  match g with
  | .requestError => rfl
  | .response r =>
    simp only [download_image]
    split
    · rfl
    split
    · rfl
    split
    · rfl
    split
    · rfl
    match index, hwf with
    | .obj kvs, hwf =>
      simp only [jContains]
      rcases hk : hasKey kvs (sha256hex _) with _ | _
      · simp only [jSetItem]
        rfl
      · obtain ⟨v, hv⟩ := lookupKV_some_of_hasKey _ _ hk
        simp only [jGetItem, hv]
        obtain ⟨kv, hmem, hsnd⟩ := lookupKV_mem _ _ _ hv
        simp only [wfIndex, List.all_eq_true] at hwf
        have := hwf kv hmem
        rw [hsnd] at this
        match v, this with
        | .obj l, this =>
          obtain ⟨f, hf⟩ := lookupKV_some_of_hasKey l "filename".data this
          simp [jGetItem, hf, notRaised]

/-- C4 (counterexample): `load_index` returns whatever JSON the index
file holds; on an index loaded from a file containing `[]`, a fully
valid image download reaches the index-insertion step and raises an
uncaught `TypeError` to the caller. -/
theorem C4_counterexample :
    notRaised (download_image [] "u".data "d".data
      (.response ⟨200, some "image/png".data, none, none, [[97]]⟩)
      (.arr []) 100 5) = false := by
  rfl

theorem C4_witness :
    notRaised (download_image [] "u".data "d".data
      (.response ⟨200, some "image/png".data, none, none, [[97]]⟩)
      (.obj [("k".data, mkRecord "f.png".data "u".data "image/png".data 1 2)])
      100 5) = true :=
  C4_no_raise_for_wf_index [] "u".data "d".data
    (.response ⟨200, some "image/png".data, none, none, [[97]]⟩)
    (.obj [("k".data, mkRecord "f.png".data "u".data "image/png".data 1 2)])
    100 5 (by decide)

lemma download_success_inversion
    (fs : FS) (url out_dir : Str) (r : Resp) (index : JValue) (max_bytes now : Nat)
    (path : Str) (fs2 : FS) (idx2 : JValue)
    (h : download_image fs url out_dir (.response r) index max_bytes now =
      .ret (.success path) fs2 idx2) :
    ∃ bytes kvs,
      ¬ (400 ≤ r.status ∧ r.status < 600) ∧
      ctAllowed (parseCT r.contentType) = true ∧
      lengthRejects r.contentLength max_bytes = false ∧
      streamChunks max_bytes r.body [] 0 = some (bytes, bytes.length) ∧
      index = .obj kvs ∧
      hasKey kvs (sha256hex bytes) = false ∧
      path = make_unique_path
        (fsPaths (setFile fs (pathJoin out_dir
          (targetFilename url r.contentDisposition (parseCT r.contentType) ++ ".tmp".data))
          bytes))
        out_dir (targetFilename url r.contentDisposition (parseCT r.contentType)) ∧
      fs2 = replaceFile
        (setFile fs (pathJoin out_dir
          (targetFilename url r.contentDisposition (parseCT r.contentType) ++ ".tmp".data))
          bytes)
        (pathJoin out_dir
          (targetFilename url r.contentDisposition (parseCT r.contentType) ++ ".tmp".data))
        path ∧
      idx2 = .obj (setKV kvs (sha256hex bytes)
        (mkRecord (basename path) url (parseCT r.contentType) bytes.length now)) := by
  simp only [download_image] at h
  split at h
  · exact absurd h (by simp)
  rename_i hstat
  split at h
  · exact absurd h (by simp)
  rename_i hctn
  have hct : ctAllowed (parseCT r.contentType) = true := by
    revert hctn
    cases ctAllowed (parseCT r.contentType) <;> simp
  split at h
  · exact absurd h (by simp)
  rename_i hlenn
  have hlen : lengthRejects r.contentLength max_bytes = false := by
    revert hlenn
    cases lengthRejects r.contentLength max_bytes <;> simp
  split at h
  · exact absurd h (by simp)
  rename_i bytes total hstream
  split at h
  · exact absurd h (by simp)
  · split at h
    · exact absurd h (by simp)
    · split at h
      · exact absurd h (by simp)
      · exact absurd h (by simp)
  · rename_i heqc
    split at h
    · exact absurd h (by simp)
    rename_i idxNew hset
    have htot : total = bytes.length := by
      have := streamChunks_some_len max_bytes r.body [] 0 bytes total hstream
      simpa using this
    subst htot
    cases index with
    | null => simp [jSetItem] at hset
    | bool b => simp [jSetItem] at hset
    | num n => simp [jSetItem] at hset
    | str s => simp [jSetItem] at hset
    | arr xs => simp [jSetItem] at hset
    | obj kvs =>
      simp only [jContains, Except.ok.injEq] at heqc
      simp only [jSetItem, Except.ok.injEq] at hset
      rw [Outcome.ret.injEq] at h
      obtain ⟨hpath, hfs, hidx⟩ := h
      rw [DLRes.success.injEq] at hpath
      subst hpath
      subst hfs
      subst hidx
      subst hset
      exact ⟨bytes, kvs, hstat, hct, hlen, hstream, rfl, heqc, rfl, rfl, rfl⟩

lemma fileContents_setFile (fs : FS) (p : Str) (b : List Nat) :
    fileContents (setFile fs p b) p = some b := by
  simp [fileContents, setFile]

lemma fileContents_replace_dst (fs : FS) (tmp dst : Str) (b : List Nat) :
    fileContents (replaceFile (setFile fs tmp b) tmp dst) dst = some b := by
  simp only [replaceFile, fileContents_setFile]

lemma hasKey_of_lookup :
    ∀ (kvs : List (Str × JValue)) (k : Str) (v : JValue),
      lookupKV kvs k = some v → hasKey kvs k = true := by
  intro kvs k v
  induction kvs with
  | nil => intro h; simp [lookupKV] at h
  | cons kv rest ih =>
    intro h
    by_cases he : kv.1 = k
    · simp [hasKey, he]
    · simp only [lookupKV, he, if_false] at h
      simp only [hasKey, List.any_cons, Bool.or_eq_true]
      right
      exact ih h

lemma lookupKV_append_right :
    ∀ (kvs : List (Str × JValue)) (k : Str) (v : JValue),
      hasKey kvs k = false → lookupKV (kvs ++ [(k, v)]) k = some v := by
  intro kvs k v
  induction kvs with
  | nil => intro _; simp [lookupKV]
  | cons kv rest ih =>
    intro h
    simp only [hasKey, List.any_cons, Bool.or_eq_false_iff] at h
    obtain ⟨he, hrest⟩ := h
    rw [decide_eq_false_iff_not] at he
    simp [lookupKV, he, ih hrest]

lemma lookupKV_mapSet :
    ∀ (kvs : List (Str × JValue)) (k : Str) (v : JValue),
      hasKey kvs k = true →
      lookupKV (kvs.map (fun kv => if kv.1 = k then (k, v) else kv)) k = some v := by
  intro kvs k v
  induction kvs with
  | nil => intro h; simp [hasKey] at h
  | cons kv rest ih =>
    intro h
    by_cases he : kv.1 = k
    · simp [lookupKV, he]
    · simp only [hasKey, List.any_cons, Bool.or_eq_true, decide_eq_true_eq] at h
      rcases h with h | h
      · exact absurd h he
      · simp [lookupKV, he, ih h]

lemma lookupKV_setKV (kvs : List (Str × JValue)) (k : Str) (v : JValue) :
    lookupKV (setKV kvs k v) k = some v := by
  by_cases hk : hasKey kvs k = true
  · simp only [setKV, hk, if_true]
    exact lookupKV_mapSet kvs k v hk
  · rw [Bool.not_eq_true] at hk
    simp only [setKV, hk, Bool.false_eq_true, if_false]
    exact lookupKV_append_right kvs k v hk

/-- C9: on every successful return, the index entry just inserted is
keyed by the SHA-256 hex digest of exactly the bytes of the finalized
file, and records that file's byte count as its size (together with the
final basename, source URL, validated content type and timestamp). -/
theorem C9_index_entry_matches_file (fs : FS) (url out_dir : Str) (r : Resp)
    (index : JValue) (max_bytes now : Nat) (path : Str) (fs2 : FS) (idx2 : JValue)
    (h : download_image fs url out_dir (.response r) index max_bytes now =
      .ret (.success path) fs2 idx2) :
    ∃ bytes kvs2,
      fileContents fs2 path = some bytes ∧
      idx2 = .obj kvs2 ∧
      lookupKV kvs2 (sha256hex bytes) =
        some (mkRecord (basename path) url (parseCT r.contentType) bytes.length now) := by
  obtain ⟨bytes, kvs, hstat, hct, hlen, hstream, hidx, hkey, hpath, hfs, hidx2⟩ :=
    download_success_inversion fs url out_dir r index max_bytes now path fs2 idx2 h
  refine ⟨bytes, setKV kvs (sha256hex bytes)
      (mkRecord (basename path) url (parseCT r.contentType) bytes.length now),
    ?_, hidx2, lookupKV_setKV _ _ _⟩
  rw [hfs]
  exact fileContents_replace_dst _ _ _ _

theorem C9_witness :
    ∃ bytes kvs2,
      fileContents [("d/u.png".data, [97])] "d/u.png".data = some bytes ∧
      JValue.obj [(sha256hex [97],
          mkRecord "u.png".data "u".data "image/png".data 1 5)] = .obj kvs2 ∧
      lookupKV kvs2 (sha256hex bytes) =
        some (mkRecord (basename "d/u.png".data) "u".data
          (parseCT (some "image/png".data)) bytes.length 5) :=
  C9_index_entry_matches_file [] "u".data "d".data
    ⟨200, some "image/png".data, some "1".data, none, [[97]]⟩ (.obj []) 100 5
    "d/u.png".data [("d/u.png".data, [97])]
    (.obj [(sha256hex [97], mkRecord "u.png".data "u".data "image/png".data 1 5)])
    (by rfl)

lemma removeFile_setFile (fs : FS) (p : Str) (b : List Nat) :
    removeFile (setFile fs p b) p = removeFile fs p := by
  simp [removeFile, setFile, List.filter_filter]

lemma jGetItem_obj (kvs : List (Str × JValue)) (k : Str) (v : JValue)
    (h : lookupKV kvs k = some v) : jGetItem k (.obj kvs) = .ok v := by
  simp [jGetItem, h]

lemma duplicate_branch (fs : FS) (url out_dir : Str) (r : Resp)
    (kvs : List (Str × JValue)) (max_bytes now : Nat) (bytes : List Nat)
    (total : Nat) (ex f : JValue)
    (hstat : ¬ (400 ≤ r.status ∧ r.status < 600))
    (hct : ctAllowed (parseCT r.contentType) = true)
    (hlen : lengthRejects r.contentLength max_bytes = false)
    (hstream : streamChunks max_bytes r.body [] 0 = some (bytes, total))
    (hlook : lookupKV kvs (sha256hex bytes) = some ex)
    (hf : jGetItem "filename".data ex = .ok f) :
    download_image fs url out_dir (.response r) (.obj kvs) max_bytes now =
      .ret (.failure (.duplicate f (jGetDefault "url".data ex)))
        (removeFile fs (pathJoin out_dir
          (targetFilename url r.contentDisposition (parseCT r.contentType) ++ ".tmp".data)))
        (.obj kvs) := by
  have hk : hasKey kvs (sha256hex bytes) = true := hasKey_of_lookup _ _ _ hlook
  simp only [download_image, hstat, hct, hlen, hstream, jContains, hk,
    jGetItem_obj kvs (sha256hex bytes) ex hlook, hf, if_false, Bool.not_true,
    not_true_eq_false, not_false_eq_true, if_true, reduceCtorEq, removeFile_setFile]

/-- C2: when the digest of the streamed content is already a key of the
index, `download_image` deletes the temporary file and returns the
duplicate failure with the recorded filename and URL, leaving the
filesystem with no new file and the index unchanged; consequently
re-running the routine after any successful run, with the state that run
produced, always yields a duplicate failure and never a second saved
file. -/
theorem C2_duplicate_idempotent :
    (∀ (fs : FS) (url out_dir : Str) (r : Resp) (kvs : List (Str × JValue))
        (max_bytes now : Nat) (bytes : List Nat) (total : Nat) (ex f : JValue),
      ¬ (400 ≤ r.status ∧ r.status < 600) →
      ctAllowed (parseCT r.contentType) = true →
      lengthRejects r.contentLength max_bytes = false →
      streamChunks max_bytes r.body [] 0 = some (bytes, total) →
      lookupKV kvs (sha256hex bytes) = some ex →
      jGetItem "filename".data ex = .ok f →
      ∃ tmp_path,
        tmp_path = pathJoin out_dir
          (targetFilename url r.contentDisposition (parseCT r.contentType) ++ ".tmp".data) ∧
        download_image fs url out_dir (.response r) (.obj kvs) max_bytes now =
          .ret (.failure (.duplicate f (jGetDefault "url".data ex)))
            (removeFile fs tmp_path) (.obj kvs) ∧
        fileExists (removeFile fs tmp_path) tmp_path = false)
    ∧ (∀ (fs : FS) (url out_dir : Str) (r : Resp) (index : JValue)
        (max_bytes now now2 : Nat) (path : Str) (fs2 : FS) (idx2 : JValue),
      download_image fs url out_dir (.response r) index max_bytes now =
        .ret (.success path) fs2 idx2 →
      download_image fs2 url out_dir (.response r) idx2 max_bytes now2 =
        .ret (.failure (.duplicate (.str (basename path)) (.str url)))
          (removeFile fs2 (pathJoin out_dir
            (targetFilename url r.contentDisposition (parseCT r.contentType) ++ ".tmp".data)))
          idx2) := by
  constructor
  · intro fs url out_dir r kvs max_bytes now bytes total ex f hstat hct hlen hstream
      hlook hf
    exact ⟨_, rfl,
      duplicate_branch fs url out_dir r kvs max_bytes now bytes total ex f hstat hct
        hlen hstream hlook hf,
      fileExists_removeFile _ _⟩
  · intro fs url out_dir r index max_bytes now now2 path fs2 idx2 hfirst
    obtain ⟨bytes, kvs, hstat, hct, hlen, hstream, hidx, hkey, hpath, hfs, hidx2⟩ :=
      download_success_inversion fs url out_dir r index max_bytes now path fs2 idx2
        hfirst
    subst hidx2
    have hrec : jGetItem "filename".data
        (mkRecord (basename path) url (parseCT r.contentType) bytes.length now) =
        .ok (.str (basename path)) := by
      simp [jGetItem, mkRecord, lookupKV]
    have hurl : jGetDefault "url".data
        (mkRecord (basename path) url (parseCT r.contentType) bytes.length now) =
        .str url := by
      simp [jGetDefault, mkRecord, lookupKV]
    have := duplicate_branch fs2 url out_dir r
      (setKV kvs (sha256hex bytes)
        (mkRecord (basename path) url (parseCT r.contentType) bytes.length now))
      max_bytes now2 bytes bytes.length
      (mkRecord (basename path) url (parseCT r.contentType) bytes.length now)
      (.str (basename path)) hstat hct hlen hstream (lookupKV_setKV _ _ _) hrec
    rw [hurl] at this
    exact this

theorem C2_witness :
    (∃ tmp_path,
      tmp_path = pathJoin "d".data
        (targetFilename "u".data none (parseCT (some "image/png".data)) ++ ".tmp".data) ∧
      download_image [("d/u.png".data, [97])] "u".data "d".data
          (.response ⟨200, some "image/png".data, some "1".data, none, [[97]]⟩)
          (.obj [(sha256hex [97], mkRecord "u.png".data "u".data "image/png".data 1 5)])
          100 9 =
        .ret (.failure (.duplicate (.str "u.png".data)
            (jGetDefault "url".data
              (mkRecord "u.png".data "u".data "image/png".data 1 5))))
          (removeFile [("d/u.png".data, [97])] tmp_path)
          (.obj [(sha256hex [97],
            mkRecord "u.png".data "u".data "image/png".data 1 5)]) ∧
      fileExists (removeFile [("d/u.png".data, [97])] tmp_path) tmp_path = false)
    ∧ download_image [("d/u.png".data, [97])] "u".data "d".data
        (.response ⟨200, some "image/png".data, some "1".data, none, [[97]]⟩)
        (.obj [(sha256hex [97], mkRecord "u.png".data "u".data "image/png".data 1 5)])
        100 9 =
      .ret (.failure (.duplicate (.str (basename "d/u.png".data)) (.str "u".data)))
        (removeFile [("d/u.png".data, [97])] (pathJoin "d".data
          (targetFilename "u".data none (parseCT (some "image/png".data)) ++ ".tmp".data)))
        (.obj [(sha256hex [97], mkRecord "u.png".data "u".data "image/png".data 1 5)]) :=
  ⟨C2_duplicate_idempotent.1 [("d/u.png".data, [97])] "u".data "d".data
      ⟨200, some "image/png".data, some "1".data, none, [[97]]⟩
      [(sha256hex [97], mkRecord "u.png".data "u".data "image/png".data 1 5)]
      100 9 [97] 1 (mkRecord "u.png".data "u".data "image/png".data 1 5)
      (.str "u.png".data) (by decide) (by decide) (by rfl) (by rfl) (by rfl) (by rfl),
   C2_duplicate_idempotent.2 [] "u".data "d".data
      ⟨200, some "image/png".data, some "1".data, none, [[97]]⟩ (.obj []) 100 5 9
      "d/u.png".data [("d/u.png".data, [97])]
      (.obj [(sha256hex [97], mkRecord "u.png".data "u".data "image/png".data 1 5)])
      (by rfl)⟩

lemma collapseU_all (p : Char → Bool) :
    ∀ l : Str, l.all p = true → (collapseU l).all p = true := by
  intro l
  induction l with
  | nil => intro _; rfl
  | cons c rest ih =>
    intro h
    simp only [List.all_cons, Bool.and_eq_true] at h
    obtain ⟨hc, hrest⟩ := h
    by_cases hu : c = '_' ∧ rest.head? = some '_'
    · simp only [collapseU, if_pos hu]
      exact ih hrest
    · simp only [collapseU, if_neg hu, List.all_cons, Bool.and_eq_true]
      exact ⟨hc, ih hrest⟩

/-- C3 (counterexample): `sanitize_filename "a/"` is the empty string —
neither nonempty nor the placeholder — because the placeholder is
substituted only when the input is empty, before the basename step can
empty the string. -/
theorem C3_counterexample :
    sanitize_filename "a/".data = [] ∧ ([] : Str) ≠ "downloaded_image".data := by
  decide

/-- C3 (amended): every output of `sanitize_filename` consists only of
characters in `[A-Za-z0-9._-]`, has length at most 200, and contains no
path separator; the fixed placeholder is substituted when the input
(not the result) is empty.  The result itself can be empty, when the
decoded final path segment of a nonempty input is empty. -/
theorem C3_sanitize_charset :
    (∀ s : Str,
      (sanitize_filename s).all isSafeChar = true ∧
      (sanitize_filename s).length ≤ 200 ∧
      (sanitize_filename s).contains '/' = false)
    ∧ sanitize_filename [] = "downloaded_image".data := by
  constructor
  · intro s
    have hall : ∀ l : Str,
        (l.map (fun c => if isSafeChar c then c else '_')).all isSafeChar = true := by
      intro l
      rw [List.all_eq_true]
      intro x hx
      rw [List.mem_map] at hx
      obtain ⟨c, _, hc⟩ := hx
      subst hc
      by_cases h : isSafeChar c
      · simp [h]
      · simp [h]
        decide
    have hcol := collapseU_all isSafeChar _
      (hall (basename (unquote (if s = [] then "downloaded_image".data else s))))
    have htake : (sanitize_filename s).all isSafeChar = true := by
      show ((collapseU _).take 200).all isSafeChar = true
      rw [List.all_eq_true]
      intro x hx
      exact List.all_eq_true.mp hcol x ((List.take_sublist _ _).mem hx)
    refine ⟨htake, ?_, ?_⟩
    · show ((collapseU _).take 200).length ≤ 200
      rw [List.length_take]
      exact Nat.min_le_left _ _
    · rcases hc : (sanitize_filename s).contains '/' with _ | _
      · rfl
      · have hmem : '/' ∈ sanitize_filename s := List.elem_iff.mp hc
        have := List.all_eq_true.mp htake _ hmem
        simp [isSafeChar] at this
  · decide

/-- C8: every content type that passes the allow-list check has a mapped
extension, so the `.img` fallback branch of the filename-extension step
is unreachable: an extensionless filename always receives the mapped
extension. -/
theorem C8_img_fallback_unreachable (ct : Str)
    (h : ("image/".data.isPrefixOf ct && ALLOWED_IMAGE_TYPES.contains ct) = true) :
    ext_from_content_type ct ≠ [] ∧
    ∀ fn : Str,
      finalizeName fn ct =
        (if (splitext fn).2 = [] then fn ++ ext_from_content_type ct else fn) := by
  rw [Bool.and_eq_true] at h
  obtain ⟨hp, hmem⟩ := h
  have hmem2 : ct = "image/jpeg".data ∨ ct = "image/png".data ∨ ct = "image/gif".data ∨
      ct = "image/webp".data ∨ ct = "image/svg+xml".data ∨ ct = "image/bmp".data ∨
      ct = "image/tiff".data := by
    simpa [ALLOWED_IMAGE_TYPES] using hmem
  have key : ext_from_content_type ct ≠ [] := by
    rcases hmem2 with rfl | rfl | rfl | rfl | rfl | rfl | rfl <;> decide
  refine ⟨key, fun fn => ?_⟩
  simp only [finalizeName]
  by_cases hspl : (splitext fn).2 = []
  · rw [if_pos hspl, if_pos hspl, if_neg key]
  · rw [if_neg hspl, if_neg hspl]

theorem C8_witness :
    ext_from_content_type "image/png".data ≠ [] ∧
    ∀ fn : Str,
      finalizeName fn "image/png".data =
        (if (splitext fn).2 = [] then fn ++ ext_from_content_type "image/png".data
         else fn) :=
  C8_img_fallback_unreachable "image/png".data (by decide)

lemma digitChar_toNat (d : Nat) (h : d < 10) : (digitChar d).toNat = 48 + d := by
  interval_cases d <;> rfl

lemma pyStrAux_foldl (fuel : Nat) :
    ∀ (n a : Nat), n ≤ fuel →
      (pyStrAux fuel n).foldl (fun a c => 10 * a + (c.toNat - 48)) a =
        a * 10 ^ (pyStrAux fuel n).length + n := by
  induction fuel with
  | zero =>
    intro n a h
    have : n = 0 := Nat.le_zero.mp h
    subst this
    simp [pyStrAux]
  | succ fuel ih =>
    intro n a h
    by_cases hn : n = 0
    · subst hn
      simp [pyStrAux]
    · have hlt : n / 10 ≤ fuel := by
        have : n / 10 < n := Nat.div_lt_self (Nat.pos_of_ne_zero hn) (by omega)
        omega
      simp only [pyStrAux, hn, if_false, List.foldl_append, List.length_append,
        List.length_cons, List.length_nil]
      rw [ih (n / 10) a hlt]
      simp only [List.foldl_cons, List.foldl_nil]
      rw [digitChar_toNat (n % 10) (Nat.mod_lt n (by omega))]
      have hd : 10 * (n / 10) + n % 10 = n := Nat.div_add_mod n 10
      have hp : 10 ^ ((pyStrAux fuel (n / 10)).length + (0 + 1)) =
          10 ^ (pyStrAux fuel (n / 10)).length * 10 := by
        rw [Nat.zero_add, pow_succ]
      rw [hp]
      ring_nf
      omega

lemma readNat_pyStr (n : Nat) : readNat (pyStr n) = n := by
  by_cases hn : n = 0
  · subst hn
    rfl
  · simp only [pyStr, readNat, hn, if_false]
    rw [pyStrAux_foldl n n 0 (Nat.le_refl n)]
    simp

lemma pyStr_inj (a b : Nat) (h : pyStr a = pyStr b) : a = b := by
  have ha := readNat_pyStr a
  rw [h, readNat_pyStr b] at ha
  omega

lemma pathJoin_inj_right (d n m : Str) (hh : n.head? = m.head?)
    (h : pathJoin d n = pathJoin d m) : n = m := by
  simp only [pathJoin] at h
  by_cases h1 : n.head? = some '/'
  · rw [if_pos h1, if_pos (hh.symm.trans h1)] at h
    exact h
  · rw [if_neg h1, if_neg (fun hc => h1 (hh.trans hc))] at h
    by_cases h2 : d = []
    · rw [if_pos h2, if_pos h2] at h
      exact h
    · rw [if_neg h2, if_neg h2] at h
      by_cases h3 : d.getLast? = some '/'
      · rw [if_pos h3, if_pos h3] at h
        exact List.append_cancel_left h
      · rw [if_neg h3, if_neg h3] at h
        have h4 : '/' :: n = '/' :: m := List.append_cancel_left h
        injection h4

lemma mupCand_inj (dir base ext : Str) (i j : Nat)
    (h : pathJoin dir (base ++ '_' :: (pyStr i ++ ext)) =
      pathJoin dir (base ++ '_' :: (pyStr j ++ ext))) : i = j := by
  have hh : (base ++ '_' :: (pyStr i ++ ext)).head? =
      (base ++ '_' :: (pyStr j ++ ext)).head? := by
    cases base <;> simp
  have h2 := pathJoin_inj_right dir _ _ hh h
  have h3 : '_' :: (pyStr i ++ ext) = '_' :: (pyStr j ++ ext) :=
    List.append_cancel_left h2
  have h4 : pyStr i ++ ext = pyStr j ++ ext := by injection h3
  exact pyStr_inj i j (List.append_cancel_right h4)

lemma exists_free_cand (fs : List Str) (dir base ext : Str) :
    ∃ j, 1 ≤ j ∧ j ≤ fs.length + 1 ∧
      pathJoin dir (base ++ '_' :: (pyStr j ++ ext)) ∉ fs := by
  by_contra hall
  push_neg at hall
  have hmaps : ∀ j ∈ Finset.Icc 1 (fs.length + 1),
      pathJoin dir (base ++ '_' :: (pyStr j ++ ext)) ∈ fs.toFinset := by
    intro j hj
    rw [Finset.mem_Icc] at hj
    rw [List.mem_toFinset]
    exact hall j hj.1 hj.2
  have hinj : (↑(Finset.Icc 1 (fs.length + 1)) : Set Nat).InjOn
      (fun j => pathJoin dir (base ++ '_' :: (pyStr j ++ ext))) := by
    intro i _ j _ h
    exact mupCand_inj dir base ext i j h
  have hcard := Finset.card_le_card_of_injOn _ hmaps hinj
  rw [Nat.card_Icc] at hcard
  have hle := List.toFinset_card_le (l := fs)
  omega

lemma mupLoop_not_mem (fs : List Str) (dir base ext : Str) :
    ∀ (fuel i : Nat),
      (∃ j, i ≤ j ∧ j < i + fuel ∧
        pathJoin dir (base ++ '_' :: (pyStr j ++ ext)) ∉ fs) →
      mupLoop fs dir base ext fuel i ∉ fs := by
  intro fuel
  induction fuel with
  | zero =>
    intro i ⟨j, hij, hj, _⟩
    omega
  | succ fuel ih =>
    intro i ⟨j, hij, hj, hfree⟩
    simp only [mupLoop]
    by_cases hc : pathJoin dir (base ++ '_' :: (pyStr i ++ ext)) ∈ fs
    · rw [if_pos hc]
      apply ih (i + 1)
      refine ⟨j, ?_, by omega, hfree⟩
      rcases Nat.eq_or_lt_of_le hij with heq | hlt
      · subst heq
        exact absurd hc hfree
      · omega
    · rw [if_neg hc]
      exact hc

/-- C7: the path chosen by `make_unique_path` never collides with an
existing path: the target filename is kept when free, and otherwise the
suffixes `_1`, `_2`, ... before the extension are tried until a free
path is found; consequently saving under the same base filename twice
produces two distinct final paths. -/
theorem C7_make_unique_path_fresh (fs : List Str) (directory filename : Str) :
    make_unique_path fs directory filename ∉ fs ∧
    (∀ p, p ∈ fs → make_unique_path fs directory filename ≠ p) ∧
    make_unique_path (make_unique_path fs directory filename :: fs)
      directory filename ≠ make_unique_path fs directory filename := by
  have key : ∀ fs2 : List Str, make_unique_path fs2 directory filename ∉ fs2 := by
    intro fs2
    simp only [make_unique_path]
    by_cases hc : pathJoin directory filename ∈ fs2
    · rw [if_pos hc]
      obtain ⟨j, h1, h2, hfree⟩ :=
        exists_free_cand fs2 directory (splitext filename).1 (splitext filename).2
      exact mupLoop_not_mem fs2 directory _ _ (fs2.length + 1) 1 ⟨j, h1, by omega, hfree⟩
    · rw [if_neg hc]
      exact hc
  refine ⟨key fs, fun p hp heq => (key fs) (heq ▸ hp), fun heq => ?_⟩
  apply key (make_unique_path fs directory filename :: fs)
  rw [heq]
  exact List.mem_cons_self _ _

theorem C7_witness :
    make_unique_path ["d/a.png".data, "d/a_1.png".data] "d".data "a.png".data ∉
      (["d/a.png".data, "d/a_1.png".data] : List Str) ∧
    (∀ p, p ∈ (["d/a.png".data, "d/a_1.png".data] : List Str) →
      make_unique_path ["d/a.png".data, "d/a_1.png".data] "d".data "a.png".data ≠ p) ∧
    make_unique_path
        (make_unique_path ["d/a.png".data, "d/a_1.png".data] "d".data "a.png".data ::
          ["d/a.png".data, "d/a_1.png".data]) "d".data "a.png".data ≠
      make_unique_path ["d/a.png".data, "d/a_1.png".data] "d".data "a.png".data :=
  C7_make_unique_path_fresh ["d/a.png".data, "d/a_1.png".data] "d".data "a.png".data
